import Mathlib

/-!
Verification of the generalized rock-paper-scissors engine (grps.py).

The embedding follows the source closely:
  - a `Game` mirrors a `GRPS` object: size `n`, stored edge count `ne`,
    and the two optional configuration fields;
  - Python `assert` failures and raised exceptions are modelled by `none`
    results (`Option`);
  - move indices are natural numbers (the source only ever produces
    non-negative indices from `range`/`randint`/`list.index`); match
    outcomes are integers because the tie sentinel is `-1`;
  - `print` output of `play` is modelled as the second component of its
    result, and its Python return value as the first component;
  - the random draw of `randint(0, n-1)` is modelled by an explicit
    `sample` argument.
-/

/-- State of a `GRPS` object: size, stored edge count `ne = n*(n-1)/2`,
optional node names and optional verb map (a Python dict embedded as a
key-value list; the dicts appearing in the source have distinct keys). -/
structure Game where
  n : Nat
  ne : Nat
  node_names : Option (List String)
  edge_verbs : Option (List ((Nat × Nat) × String))
deriving DecidableEq

/-- GRPS.__init__: stores n and ne = n*(n-1)/2, asserting n > 2 and n odd. -/
def grps_init (n : Nat) : Option Game :=
  if 2 < n ∧ n % 2 = 1 then some ⟨n, n * (n - 1) / 2, none, none⟩ else none

/-- GRPS._resolve_outcome: asserts both indices lie in [0, n-1] (for the
natural-number inputs the source produces this is exactly n0 < n, n1 < n),
then returns -1 on a tie, the max on equal parity, the min otherwise. -/
def resolve_outcome (n : Nat) (n0 n1 : Nat) : Option Int :=
  if n0 < n ∧ n1 < n then
    if n0 = n1 then some (-1)
    else if n0 % 2 = n1 % 2 then some ((max n0 n1 : Nat) : Int)
    else some ((min n0 n1 : Nat) : Int)
  else none

/-- itertools.product(range n, range n) in row-major order. -/
def product_pairs (n : Nat) : List (Nat × Nat) :=
  (List.range n).flatMap (fun i => (List.range n).map (fun j => (i, j)))

/-- GRPS.get_edge_indices: keep the pairs whose first component wins. -/
def get_edge_indices (n : Nat) : List (Nat × Nat) :=
  (product_pairs n).filter (fun e => resolve_outcome n e.1 e.2 == some ((e.1 : Nat) : Int))

/-- The body of GRPS.get_named_edge_indices: pair every edge with the names at
its two indices; list indexing that would raise IndexError yields none. -/
def named_edge_list (ns : List String) :
    List (Nat × Nat) → Option (List ((Nat × Nat) × (String × String)))
  | [] => some []
  | p :: rest =>
    (ns[p.1]?).bind fun a => (ns[p.2]?).bind fun b =>
      (named_edge_list ns rest).map fun t => (p, (a, b)) :: t

/-- GRPS.get_named_edge_indices: raises when node_names is None, otherwise
returns the edges paired with their names, in enumeration order. -/
def get_named_edge_indices (g : Game) : Option (List ((Nat × Nat) × (String × String))) :=
  match g.node_names with
  | none => none
  | some ns => named_edge_list ns (get_edge_indices g.n)

/-- node_names setter: asserts len(value) == n and len(set(value)) == len(value). -/
def set_node_names (g : Game) (value : List String) : Option Game :=
  if value.length = g.n ∧ value.toFinset.card = value.length then
    some { g with node_names := some value }
  else none

/-- edge_verbs setter: asserts len(value) == ne only. -/
def set_edge_verbs (g : Game) (value : List ((Nat × Nat) × String)) : Option Game :=
  if value.length = g.ne then some { g with edge_verbs := some value } else none

/-- GRPS.classic: size-3 game with the rock-paper-scissors names and verbs. -/
def classic : Option Game :=
  (grps_init 3).bind fun g =>
    (set_node_names g ["scissors", "paper", "rock"]).bind fun g1 =>
      set_edge_verbs g1 [((0, 1), "cuts"), ((1, 2), "wraps"), ((2, 0), "smashes")]

/-- GRPS.spock_version: size-5 game; the verb dict merges classic's dict with
seven further entries (the key sets are disjoint, so the Python dict merge
is the concatenation of the key-value lists). -/
def spock_version : Option Game :=
  (grps_init 5).bind fun g =>
    (set_node_names g ["scissors", "paper", "rock", "lizard", "spock"]).bind fun g1 =>
      (classic.bind fun c => c.edge_verbs).bind fun cv =>
        set_edge_verbs g1 (cv ++ [((0, 3), "cuts"), ((1, 4), "proves"), ((2, 3), "smashes"),
                                  ((3, 1), "eats"), ((3, 4), "poisons"), ((4, 0), "breaks"),
                                  ((4, 2), "vaporizes")])

/-- GRPS._play_int: bound checks on the provided indices (the sampled value
replaces an omitted second move without a check, as randint guarantees its
range in the source), then the resolver's outcome with the moves played. -/
def play_int (g : Game) (i : Nat) (i2 : Option Nat) (sample : Nat) :
    Option (Int × Nat × Nat) :=
  if i < g.n then
    match i2 with
    | none => (resolve_outcome g.n i sample).map (fun o => (o, i, sample))
    | some j =>
      if j < g.n then (resolve_outcome g.n i j).map (fun o => (o, i, j)) else none
  else none

/-- GRPS._play_str: membership asserts, then index lookup and _play_int. -/
def play_str (g : Game) (node : String) (node2 : Option String) (sample : Nat) :
    Option (Int × Nat × Nat) :=
  match g.node_names with
  | none => none
  | some ns =>
    if node ∈ ns then
      match node2 with
      | some m =>
        if m ∈ ns then play_int g (ns.indexOf node) (some (ns.indexOf m)) sample else none
      | none => play_int g (ns.indexOf node) none sample
    else none

/-- A move argument of GRPS.play: a Python int or str. -/
inductive MoveArg where
  | int (i : Nat)
  | str (s : String)
deriving DecidableEq

/-- The narrative message built (and printed) by the str branch of GRPS.play. -/
def render_msg (ns : List String) (vs : List ((Nat × Nat) × String)) (explicit : Bool)
    (r : Int × Nat × Nat) : Option String :=
  (ns[r.2.1]?).bind fun player =>
  (ns[r.2.2]?).bind fun pc =>
  if r.1 = -1 then some (pc ++ " vs. " ++ pc ++ ", tie!")
  else if r.1 = (r.2.1 : Int) then
    (List.lookup (r.2.1, r.2.2) vs).map fun verb =>
      if explicit then player ++ " " ++ verb ++ " " ++ pc ++ ", player1 wins!"
      else player ++ " " ++ verb ++ " " ++ pc ++ ", you win!"
  else
    (List.lookup (r.2.2, r.2.1) vs).map fun verb =>
      if explicit then pc ++ " " ++ verb ++ " " ++ player ++ ", player2 wins!"
      else pc ++ " " ++ verb ++ " " ++ player ++ ", you lose!"

/-- GRPS.play. The result's first component is the Python return value
(the match tuple for int moves, None for str moves), the second component
is the printed narrative (None for int moves). Type-dispatch asserts that
fail, unset configuration, and failed verb lookups all yield `none`. -/
def play (g : Game) (move : MoveArg) (move2 : Option MoveArg) (sample : Nat) :
    Option (Option (Int × Nat × Nat) × Option String) :=
  match move with
  | .int i =>
    match move2 with
    | some (.str _) => none
    | some (.int j) => (play_int g i (some j) sample).map (fun r => (some r, none))
    | none => (play_int g i none sample).map (fun r => (some r, none))
  | .str node =>
    match move2 with
    | some (.int _) => none
    | some (.str node2) =>
      match g.node_names, g.edge_verbs with
      | some ns, some vs =>
        (play_str g node (some node2) sample).bind fun r =>
          (render_msg ns vs true r).map (fun msg => (none, some msg))
      | _, _ => none
    | none =>
      match g.node_names, g.edge_verbs with
      | some ns, some vs =>
        (play_str g node none sample).bind fun r =>
          (render_msg ns vs false r).map (fun msg => (none, some msg))
      | _, _ => none

/-- The beats relation derived from the resolver: i wins the pair (i, j). -/
def beatsb (i j : Nat) : Bool :=
  decide (i ≠ j) && (if i % 2 = j % 2 then decide (j < i) else decide (i < j))

theorem beatsb_iff {i j : Nat} :
    beatsb i j = true ↔ i ≠ j ∧ ((i % 2 = j % 2 ∧ j < i) ∨ (¬ i % 2 = j % 2 ∧ i < j)) := by
  unfold beatsb
  by_cases h : i % 2 = j % 2 <;> simp [h]

theorem mem_product_pairs {n : Nat} {e : Nat × Nat} :
    e ∈ product_pairs n ↔ e.1 < n ∧ e.2 < n := by
  obtain ⟨a, b⟩ := e
  simp [product_pairs]

theorem resolve_beq_iff {n i j : Nat} (hi : i < n) (hj : j < n) :
    ((resolve_outcome n i j == some ((i : Nat) : Int)) = true) ↔ beatsb i j = true := by
  rw [beq_iff_eq, beatsb_iff]
  unfold resolve_outcome
  rw [if_pos ⟨hi, hj⟩]
  by_cases hij : i = j
  · subst hij
    simp
  · by_cases hp : i % 2 = j % 2 <;> simp [hij, hp] <;> omega

theorem mem_get_edge_indices {n i j : Nat} :
    (i, j) ∈ get_edge_indices n ↔ i < n ∧ j < n ∧ beatsb i j = true := by
  unfold get_edge_indices
  rw [List.mem_filter, mem_product_pairs]
  constructor
  · rintro ⟨⟨hi, hj⟩, hc⟩
    exact ⟨hi, hj, (resolve_beq_iff hi hj).1 hc⟩
  · rintro ⟨hi, hj, hb⟩
    exact ⟨⟨hi, hj⟩, (resolve_beq_iff hi hj).2 hb⟩

theorem product_pairs_nodup (n : Nat) : (product_pairs n).Nodup := by
  unfold product_pairs
  refine List.nodup_flatMap.2 ⟨fun i _ => ?_, ?_⟩
  · exact (List.nodup_range n).map (fun a b h => (Prod.mk.inj h).2)
  · refine List.Pairwise.imp ?_ (List.nodup_range n)
    intro a b hab
    intro e hea heb
    simp only [List.mem_map] at hea heb
    obtain ⟨x, _, hx⟩ := hea
    obtain ⟨y, _, hy⟩ := heb
    apply hab
    rw [← hx] at hy
    exact ((Prod.mk.inj hy).1).symm

theorem get_edge_indices_nodup (n : Nat) : (get_edge_indices n).Nodup :=
  (product_pairs_nodup n).filter _

theorem cnt_parity (n r : Nat) (hr : r < 2) :
    ((Finset.range n).filter (fun j => j % 2 = r)).card = (n + 1 - r) / 2 := by
  induction n with
  | zero => simp; omega
  | succ m ih =>
    rw [Finset.range_succ, Finset.filter_insert]
    by_cases h : m % 2 = r
    · rw [if_pos h, Finset.card_insert_of_not_mem (by simp)]
      omega
    · rw [if_neg h]
      omega

theorem cnt_lt_card (n i r : Nat) (hi : i ≤ n) :
    ((Finset.range n).filter (fun j => j % 2 = r ∧ j < i)).card
      = ((Finset.range i).filter (fun j => j % 2 = r)).card := by
  congr 1
  ext j
  simp only [Finset.mem_filter, Finset.mem_range]
  omega

theorem cnt_gt_card (n i r : Nat) (hi : i < n) :
    ((Finset.range n).filter (fun j => j % 2 = r ∧ i < j)).card
      = ((Finset.range n).filter (fun j => j % 2 = r)).card
        - ((Finset.range (i + 1)).filter (fun j => j % 2 = r)).card := by
  have hsub : (Finset.range (i + 1)).filter (fun j => j % 2 = r)
      ⊆ (Finset.range n).filter (fun j => j % 2 = r) :=
    Finset.filter_subset_filter _ (Finset.range_subset.2 hi)
  rw [← Finset.card_sdiff hsub]
  congr 1
  ext j
  simp only [Finset.mem_sdiff, Finset.mem_filter, Finset.mem_range]
  omega

theorem card_beats_right (n i : Nat) (hn : n % 2 = 1) (hi : i < n) :
    ((Finset.range n).filter (fun j => beatsb i j = true)).card = (n - 1) / 2 := by
  have hsplit : (Finset.range n).filter (fun j => beatsb i j = true)
      = (Finset.range n).filter
          (fun j => (j % 2 = i % 2 ∧ j < i) ∨ (j % 2 = (i + 1) % 2 ∧ i < j)) := by
    apply Finset.filter_congr
    intro j _
    rw [beatsb_iff]
    omega
  rw [hsplit, Finset.filter_or, Finset.card_union_of_disjoint]
  · rw [cnt_lt_card n i (i % 2) (Nat.le_of_lt hi), cnt_gt_card n i ((i + 1) % 2) hi,
      cnt_parity i (i % 2) (by omega), cnt_parity n ((i + 1) % 2) (by omega),
      cnt_parity (i + 1) ((i + 1) % 2) (by omega)]
    omega
  · rw [Finset.disjoint_left]
    intro a ha hb
    simp only [Finset.mem_filter, Finset.mem_range] at ha hb
    omega

theorem card_beats_left (n i : Nat) (hn : n % 2 = 1) (hi : i < n) :
    ((Finset.range n).filter (fun j => beatsb j i = true)).card = (n - 1) / 2 := by
  have hsplit : (Finset.range n).filter (fun j => beatsb j i = true)
      = (Finset.range n).filter
          (fun j => (j % 2 = (i + 1) % 2 ∧ j < i) ∨ (j % 2 = i % 2 ∧ i < j)) := by
    apply Finset.filter_congr
    intro j _
    rw [beatsb_iff]
    omega
  rw [hsplit, Finset.filter_or, Finset.card_union_of_disjoint]
  · rw [cnt_lt_card n i ((i + 1) % 2) (Nat.le_of_lt hi), cnt_gt_card n i (i % 2) hi,
      cnt_parity i ((i + 1) % 2) (by omega), cnt_parity n (i % 2) (by omega),
      cnt_parity (i + 1) (i % 2) (by omega)]
    omega
  · rw [Finset.disjoint_left]
    intro a ha hb
    simp only [Finset.mem_filter, Finset.mem_range] at ha hb
    omega

theorem edge_toFinset (n : Nat) :
    (get_edge_indices n).toFinset
      = (Finset.range n ×ˢ Finset.range n).filter (fun e => beatsb e.1 e.2 = true) := by
  ext e
  obtain ⟨i, j⟩ := e
  rw [List.mem_toFinset, mem_get_edge_indices]
  simp only [Finset.mem_filter, Finset.mem_product, Finset.mem_range]
  tauto

theorem edge_filter_length (n : Nat) (p : Nat × Nat → Bool) :
    ((get_edge_indices n).filter p).length
      = ((get_edge_indices n).toFinset.filter (fun e => p e = true)).card := by
  rw [← List.toFinset_filter]
  exact (List.toFinset_card_of_nodup ((get_edge_indices_nodup n).filter p)).symm

theorem out_fiber_card (n i : Nat) (hi : i < n) :
    (((Finset.range n ×ˢ Finset.range n).filter (fun e => beatsb e.1 e.2 = true)).filter
        (fun e => e.1 = i)).card
      = ((Finset.range n).filter (fun j => beatsb i j = true)).card := by
  have himg : ((Finset.range n ×ˢ Finset.range n).filter (fun e => beatsb e.1 e.2 = true)).filter
        (fun e => e.1 = i)
      = ((Finset.range n).filter (fun j => beatsb i j = true)).image (fun j => (i, j)) := by
    ext e
    obtain ⟨a, b⟩ := e
    simp only [Finset.mem_filter, Finset.mem_product, Finset.mem_range, Finset.mem_image,
      Prod.mk.injEq]
    constructor
    · rintro ⟨⟨⟨ha, hb⟩, hbeat⟩, rfl⟩
      exact ⟨b, ⟨hb, hbeat⟩, rfl, rfl⟩
    · rintro ⟨x, ⟨hx, hbeat⟩, rfl, rfl⟩
      exact ⟨⟨⟨hi, hx⟩, hbeat⟩, rfl⟩
  rw [himg, Finset.card_image_of_injective _ (fun a b h => (Prod.mk.inj h).2)]

theorem in_fiber_card (n i : Nat) (hi : i < n) :
    (((Finset.range n ×ˢ Finset.range n).filter (fun e => beatsb e.1 e.2 = true)).filter
        (fun e => e.2 = i)).card
      = ((Finset.range n).filter (fun j => beatsb j i = true)).card := by
  have himg : ((Finset.range n ×ˢ Finset.range n).filter (fun e => beatsb e.1 e.2 = true)).filter
        (fun e => e.2 = i)
      = ((Finset.range n).filter (fun j => beatsb j i = true)).image (fun j => (j, i)) := by
    ext e
    obtain ⟨a, b⟩ := e
    simp only [Finset.mem_filter, Finset.mem_product, Finset.mem_range, Finset.mem_image,
      Prod.mk.injEq]
    constructor
    · rintro ⟨⟨⟨ha, hb⟩, hbeat⟩, rfl⟩
      exact ⟨a, ⟨ha, hbeat⟩, rfl, rfl⟩
    · rintro ⟨x, ⟨hx, hbeat⟩, rfl, rfl⟩
      exact ⟨⟨⟨hx, hi⟩, hbeat⟩, rfl⟩
  rw [himg, Finset.card_image_of_injective _ (fun a b h => (Prod.mk.inj h).1)]

theorem edge_count (n : Nat) (hodd : n % 2 = 1) :
    (get_edge_indices n).length = n * (n - 1) / 2 := by
  have hlen : (get_edge_indices n).length = (get_edge_indices n).toFinset.card :=
    (List.toFinset_card_of_nodup (get_edge_indices_nodup n)).symm
  have hfib : ((Finset.range n ×ˢ Finset.range n).filter (fun e => beatsb e.1 e.2 = true)).card
      = ∑ i ∈ Finset.range n,
          (((Finset.range n ×ˢ Finset.range n).filter (fun e => beatsb e.1 e.2 = true)).filter
            (fun e => e.1 = i)).card := by
    apply Finset.card_eq_sum_card_fiberwise
    intro e he
    simp only [Finset.mem_filter, Finset.mem_product, Finset.mem_range] at he
    exact Finset.mem_range.2 he.1.1
  have hsum : ∀ i ∈ Finset.range n,
      (((Finset.range n ×ˢ Finset.range n).filter (fun e => beatsb e.1 e.2 = true)).filter
        (fun e => e.1 = i)).card = (n - 1) / 2 := by
    intro i hi
    rw [out_fiber_card n i (Finset.mem_range.1 hi),
      card_beats_right n i hodd (Finset.mem_range.1 hi)]
  rw [hlen, edge_toFinset, hfib, Finset.sum_congr rfl hsum, Finset.sum_const, smul_eq_mul,
    Finset.card_range]
  exact (Nat.mul_div_assoc n (by omega : 2 ∣ (n - 1))).symm

/-- Claim C1: for a game of valid size n and indices n0, n1 < n, the resolver
returns the tie sentinel -1 when n0 = n1, the maximum when n0 and n1 share a
parity, and the minimum otherwise. -/
theorem resolve_outcome_correct (n n0 n1 : Nat) (hn2 : 2 < n) (hodd : n % 2 = 1)
    (h0 : n0 < n) (h1 : n1 < n) :
    (n0 = n1 → resolve_outcome n n0 n1 = some (-1)) ∧
    (n0 ≠ n1 → n0 % 2 = n1 % 2 →
        resolve_outcome n n0 n1 = some ((max n0 n1 : Nat) : Int)) ∧
    (n0 % 2 ≠ n1 % 2 → resolve_outcome n n0 n1 = some ((min n0 n1 : Nat) : Int)) := by
  unfold resolve_outcome
  rw [if_pos ⟨h0, h1⟩]
  refine ⟨fun h => by rw [if_pos h], fun hne hp => by rw [if_neg hne, if_pos hp], fun hp => ?_⟩
  have hne : n0 ≠ n1 := fun h => hp (h ▸ rfl)
  rw [if_neg hne, if_neg hp]

theorem resolve_outcome_correct_witness :
    resolve_outcome 3 1 1 = some (-1) ∧
    resolve_outcome 3 0 2 = some ((2 : Nat) : Int) ∧
    resolve_outcome 3 1 2 = some ((1 : Nat) : Int) :=
  ⟨(resolve_outcome_correct 3 1 1 (by decide) (by decide) (by decide) (by decide)).1 rfl,
   by
    have h := (resolve_outcome_correct 3 0 2 (by decide) (by decide) (by decide)
      (by decide)).2.1 (by decide) (by decide)
    simpa using h,
   by
    have h := (resolve_outcome_correct 3 1 2 (by decide) (by decide) (by decide)
      (by decide)).2.2 (by decide)
    simpa using h⟩

/-- Claim C2: for every valid size n, each unordered pair of distinct indices
appears in exactly one direction in the enumerated edge list, and the list has
n*(n-1)/2 entries. -/
theorem edges_antisym_total_count (n : Nat) (hodd : n % 2 = 1) (h2 : 2 < n) :
    (∀ i j : Nat, i < n → j < n → i ≠ j →
        (((i, j) ∈ get_edge_indices n ∧ (j, i) ∉ get_edge_indices n) ∨
         ((i, j) ∉ get_edge_indices n ∧ (j, i) ∈ get_edge_indices n))) ∧
    (get_edge_indices n).length = n * (n - 1) / 2 := by
  refine ⟨?_, edge_count n hodd⟩
  intro i j hi hj hij
  simp only [mem_get_edge_indices, beatsb_iff]
  omega

theorem edges_antisym_total_count_witness :
    (((0, 1) ∈ get_edge_indices 3 ∧ (1, 0) ∉ get_edge_indices 3) ∨
     ((0, 1) ∉ get_edge_indices 3 ∧ (1, 0) ∈ get_edge_indices 3)) ∧
    (get_edge_indices 3).length = 3 * (3 - 1) / 2 :=
  ⟨(edges_antisym_total_count 3 (by decide) (by decide)).1 0 1 (by decide) (by decide)
    (by decide),
   (edges_antisym_total_count 3 (by decide) (by decide)).2⟩

/-- Claim C3: for every valid size n and every index i < n, the out-degree of i
in the enumerated edge list equals the in-degree of i and both are (n-1)/2. -/
theorem edges_degree_balanced (n i : Nat) (hodd : n % 2 = 1) (h2 : 2 < n) (hi : i < n) :
    ((get_edge_indices n).filter (fun e => e.1 == i)).length
      = ((get_edge_indices n).filter (fun e => e.2 == i)).length ∧
    ((get_edge_indices n).filter (fun e => e.1 == i)).length = (n - 1) / 2 ∧
    ((get_edge_indices n).filter (fun e => e.2 == i)).length = (n - 1) / 2 := by
  have hout : ((get_edge_indices n).filter (fun e => e.1 == i)).length = (n - 1) / 2 := by
    rw [edge_filter_length, edge_toFinset]
    have hcong : ((Finset.range n ×ˢ Finset.range n).filter
          (fun e => beatsb e.1 e.2 = true)).filter (fun e => (e.1 == i) = true)
        = ((Finset.range n ×ˢ Finset.range n).filter
          (fun e => beatsb e.1 e.2 = true)).filter (fun e => e.1 = i) := by
      apply Finset.filter_congr
      intro e _
      simp
    rw [hcong, out_fiber_card n i hi, card_beats_right n i hodd hi]
  have hin : ((get_edge_indices n).filter (fun e => e.2 == i)).length = (n - 1) / 2 := by
    rw [edge_filter_length, edge_toFinset]
    have hcong : ((Finset.range n ×ˢ Finset.range n).filter
          (fun e => beatsb e.1 e.2 = true)).filter (fun e => (e.2 == i) = true)
        = ((Finset.range n ×ˢ Finset.range n).filter
          (fun e => beatsb e.1 e.2 = true)).filter (fun e => e.2 = i) := by
      apply Finset.filter_congr
      intro e _
      simp
    rw [hcong, in_fiber_card n i hi, card_beats_left n i hodd hi]
  exact ⟨hout.trans hin.symm, hout, hin⟩

theorem edges_degree_balanced_witness :
    ((get_edge_indices 5).filter (fun e => e.1 == 2)).length
      = ((get_edge_indices 5).filter (fun e => e.2 == 2)).length ∧
    ((get_edge_indices 5).filter (fun e => e.1 == 2)).length = (5 - 1) / 2 ∧
    ((get_edge_indices 5).filter (fun e => e.2 == 2)).length = (5 - 1) / 2 :=
  edges_degree_balanced 5 2 (by decide) (by decide) (by decide)

/-- Claim C4: for every valid size n, every edge enumerated for size n is also
enumerated for size n+2. -/
theorem edges_subgraph_monotone (n : Nat) (hodd : n % 2 = 1) (h2 : 2 < n) :
    ∀ e ∈ get_edge_indices n, e ∈ get_edge_indices (n + 2) := by
  intro e he
  obtain ⟨i, j⟩ := e
  rw [mem_get_edge_indices] at he ⊢
  exact ⟨by omega, by omega, he.2.2⟩

theorem edges_subgraph_monotone_witness : (2, 0) ∈ get_edge_indices 5 :=
  edges_subgraph_monotone 3 (by decide) (by decide) (2, 0) (by decide)

/-- Claim C6: setting the verb map fails exactly when the entry count differs
from edge_count = n*(n-1)/2 (the stored ne of a validly built game); the key
set itself is not checked, so a right-sized map with wrong keys is accepted.
The verb dict is embedded as a key-value list with distinct keys, so its
length is the dict's key count. -/
theorem set_edge_verbs_size_check (g : Game) (m : List ((Nat × Nat) × String))
    (hne : g.ne = g.n * (g.n - 1) / 2) (hkeys : (m.map Prod.fst).Nodup) :
    ((set_edge_verbs g m = none) ↔ m.length ≠ g.n * (g.n - 1) / 2) ∧
    ((set_edge_verbs ⟨3, 3, none, none⟩
        [((0, 0), "a"), ((1, 1), "b"), ((2, 2), "c")]).isSome = true ∧
      (0, 0) ∈ [((0, 0), "a"), ((1, 1), "b"), ((2, 2), "c")].map Prod.fst ∧
      (0, 0) ∉ get_edge_indices 3) := by
  constructor
  · unfold set_edge_verbs
    rw [hne]
    by_cases h : m.length = g.n * (g.n - 1) / 2 <;> simp [h]
  · exact ⟨by decide, by decide, by decide⟩

theorem set_edge_verbs_size_check_witness :
    (set_edge_verbs ⟨3, 3, none, none⟩ [((0, 1), "x"), ((1, 2), "y")] = none) ∧
    ((set_edge_verbs ⟨3, 3, none, none⟩
        [((0, 0), "a"), ((1, 1), "b"), ((2, 2), "c")]).isSome = true ∧
      (0, 0) ∈ [((0, 0), "a"), ((1, 1), "b"), ((2, 2), "c")].map Prod.fst ∧
      (0, 0) ∉ get_edge_indices 3) :=
  have h := set_edge_verbs_size_check ⟨3, 3, none, none⟩
    [((0, 1), "x"), ((1, 2), "y")] (by decide) (by decide)
  ⟨h.1.mpr (by decide), h.2⟩

theorem toFinset_card_eq_length_iff (l : List String) :
    l.toFinset.card = l.length ↔ l.Nodup := by
  rw [List.card_toFinset]
  constructor
  · intro h
    exact List.dedup_eq_self.1 (l.dedup_sublist.eq_of_length h)
  · intro h
    rw [List.dedup_eq_self.2 h]

/-- Claim C7: assigning names fails exactly when the list's length differs
from n or it has a duplicate; on success the stored names are replaced
wholesale, every other field being kept; on failure no updated state exists
(the setter validates before assigning). -/
theorem set_node_names_validation (g : Game) (v : List String) :
    ((set_node_names g v = none) ↔ (v.length ≠ g.n ∨ ¬ v.Nodup)) ∧
    (∀ g', set_node_names g v = some g' → g' = { g with node_names := some v }) := by
  constructor
  · unfold set_node_names
    constructor
    · intro hnone
      by_contra hcon
      push_neg at hcon
      rw [if_pos ⟨hcon.1, (toFinset_card_eq_length_iff v).2 hcon.2⟩] at hnone
      cases hnone
    · intro hor
      have hneg : ¬(v.length = g.n ∧ v.toFinset.card = v.length) := by
        rintro ⟨hl, hc⟩
        rcases hor with h | h
        · exact h hl
        · exact h ((toFinset_card_eq_length_iff v).1 hc)
      rw [if_neg hneg]
  · intro g' hg'
    unfold set_node_names at hg'
    split at hg'
    · exact (Option.some_inj.1 hg').symm
    · cases hg'

theorem set_node_names_validation_witness :
    set_node_names ⟨3, 3, none, none⟩ ["a", "a", "b"] = none :=
  (set_node_names_validation ⟨3, 3, none, none⟩ ["a", "a", "b"]).1.mpr
    (Or.inr (by decide))

theorem named_edge_list_eq_map (ns : List String) (l : List (Nat × Nat))
    (h : ∀ p ∈ l, p.1 < ns.length ∧ p.2 < ns.length) :
    named_edge_list ns l
      = some (l.map fun p => (p, (ns.getD p.1 "", ns.getD p.2 ""))) := by
  induction l with
  | nil => rfl
  | cons p rest ih =>
    have hp := h p (List.mem_cons_self p rest)
    have h1 : ns[p.1]? = some (ns.getD p.1 "") := by
      rw [List.getElem?_eq_getElem hp.1, List.getD_eq_getElem ns "" hp.1]
    have h2 : ns[p.2]? = some (ns.getD p.2 "") := by
      rw [List.getElem?_eq_getElem hp.2, List.getD_eq_getElem ns "" hp.2]
    rw [named_edge_list, h1, h2, ih (fun q hq => h q (List.mem_cons_of_mem p hq))]
    rfl

/-- Claim C8: querying the named edge list fails exactly when names are unset;
with names set (of the valid length n) it returns, in enumeration order, each
edge paired with the names at (winner_index, loser_index). -/
theorem named_edges_spec (g : Game)
    (hlen : ∀ ns, g.node_names = some ns → ns.length = g.n) :
    ((get_named_edge_indices g = none) ↔ g.node_names = none) ∧
    (∀ ns, g.node_names = some ns →
        get_named_edge_indices g
          = some ((get_edge_indices g.n).map
              (fun p => (p, (ns.getD p.1 "", ns.getD p.2 ""))))) := by
  have hmain : ∀ ns, g.node_names = some ns →
      get_named_edge_indices g
        = some ((get_edge_indices g.n).map
            (fun p => (p, (ns.getD p.1 "", ns.getD p.2 "")))) := by
    intro ns hns
    unfold get_named_edge_indices
    rw [hns]
    apply named_edge_list_eq_map
    intro p hp
    obtain ⟨i, j⟩ := p
    have := mem_get_edge_indices.1 hp
    rw [hlen ns hns]
    exact ⟨this.1, this.2.1⟩
  constructor
  · cases hns : g.node_names with
    | none => simp [get_named_edge_indices, hns]
    | some ns => simp [hmain ns hns, hns]
  · exact hmain

theorem named_edges_spec_witness :
    get_named_edge_indices ⟨3, 3, some ["scissors", "paper", "rock"], none⟩
      = some ((get_edge_indices 3).map
          (fun p => (p, (["scissors", "paper", "rock"].getD p.1 "",
                         ["scissors", "paper", "rock"].getD p.2 "")))) :=
  (named_edges_spec ⟨3, 3, some ["scissors", "paper", "rock"], none⟩
    (by intro ns h; cases h; rfl)).2 ["scissors", "paper", "rock"] rfl

theorem resolve_outcome_isSome {n i j : Nat} (hi : i < n) (hj : j < n) :
    ∃ o, resolve_outcome n i j = some o := by
  unfold resolve_outcome
  rw [if_pos ⟨hi, hj⟩]
  by_cases h1 : i = j <;> by_cases h2 : i % 2 = j % 2 <;> simp [h1, h2]

/-- Claim C9: index-form play with both moves provided fails exactly when a
provided index is out of [0, n); in range it returns the resolver's outcome
with the pair of indices played; and play(5) on a size-3 game fails (also in
the one-move form, where the bound check precedes sampling). -/
theorem play_int_range_check (g : Game) (i j s : Nat) :
    ((play_int g i (some j) s = none) ↔ (g.n ≤ i ∨ g.n ≤ j)) ∧
    (i < g.n → j < g.n →
        play_int g i (some j) s = (resolve_outcome g.n i j).map (fun o => (o, i, j))) ∧
    (∀ s', play_int ⟨3, 3, none, none⟩ 5 (some s') s = none) ∧
    play_int ⟨3, 3, none, none⟩ 5 none s = none := by
  refine ⟨?_, ?_, fun s' => rfl, rfl⟩
  · unfold play_int
    by_cases hi : i < g.n
    · by_cases hj : j < g.n
      · obtain ⟨o, ho⟩ := resolve_outcome_isSome hi hj
        simp [hi, hj, ho]
      · simp [hi, hj]
        omega
    · simp [hi]
      omega
  · intro hi hj
    simp [play_int, hi, hj]

theorem play_int_range_check_witness :
    (play_int ⟨3, 3, none, none⟩ 5 (some 0) 0 = none) ∧
    (play_int ⟨3, 3, none, none⟩ 0 (some 1) 0
      = (resolve_outcome 3 0 1).map (fun o => (o, 0, 1))) ∧
    (play_int ⟨3, 3, none, none⟩ 5 none 0 = none) :=
  have h := play_int_range_check ⟨3, 3, none, none⟩ 5 0 0
  have h2 := play_int_range_check ⟨3, 3, none, none⟩ 0 1 0
  ⟨h.1.mpr (by decide), h2.2.1 (by decide) (by decide), h.2.2.2⟩

/-- A factory configuration is valid for size n: names are n distinct strings,
the verb map's key set is exactly the enumerated edge set, and every name-form
play between two distinct configured names succeeds (its verb is found). -/
abbrev ValidCfg (g : Game) (n : Nat) : Prop :=
  g.n = n ∧ g.node_names.isSome = true ∧ g.edge_verbs.isSome = true ∧
  (let ns := g.node_names.getD []
   let vs := g.edge_verbs.getD []
   ns.length = n ∧ ns.Nodup ∧
   (∀ e ∈ vs.map Prod.fst, e ∈ get_edge_indices n) ∧
   (∀ e ∈ get_edge_indices n, e ∈ vs.map Prod.fst) ∧
   (vs.map Prod.fst).Nodup ∧
   (∀ a ∈ ns, ∀ b ∈ ns, a ≠ b →
      (play g (MoveArg.str a) (some (MoveArg.str b)) 0).isSome = true))

/-- Claim C10: the classic (n=3) and spock_version (n=5) factory games are
valid configurations: exact verb key set, n distinct names, and every
name-form play between two distinct names finds its verb. -/
theorem factory_configs_valid :
    (∀ g, classic = some g → ValidCfg g 3) ∧
    (∀ g, spock_version = some g → ValidCfg g 5) ∧
    classic.isSome = true ∧ spock_version.isSome = true := by
  refine ⟨?_, ?_, by decide, by decide⟩
  · intro g hg
    rw [show classic = some (⟨3, 3, some ["scissors", "paper", "rock"],
      some [((0, 1), "cuts"), ((1, 2), "wraps"), ((2, 0), "smashes")]⟩ : Game)
      from by decide] at hg
    injection hg with h
    subst h
    decide
  · intro g hg
    rw [show spock_version = some (⟨5, 10,
      some ["scissors", "paper", "rock", "lizard", "spock"],
      some [((0, 1), "cuts"), ((1, 2), "wraps"), ((2, 0), "smashes"),
            ((0, 3), "cuts"), ((1, 4), "proves"), ((2, 3), "smashes"),
            ((3, 1), "eats"), ((3, 4), "poisons"), ((4, 0), "breaks"),
            ((4, 2), "vaporizes")]⟩ : Game)
      from by decide] at hg
    injection hg with h
    subst h
    decide

theorem factory_configs_valid_witness :
    ValidCfg ⟨3, 3, some ["scissors", "paper", "rock"],
      some [((0, 1), "cuts"), ((1, 2), "wraps"), ((2, 0), "smashes")]⟩ 3 :=
  factory_configs_valid.1 _ (by decide)

/-- Claim C5 counterexample: on the classic game, name-form play with both
moves given produces the narrative, but its Python return value (the first
component of the modelled result) is None, not a MatchResult: the source's
str branch prints the message and falls off the end of the function. -/
theorem play_name_returns_none_cex :
    (classic.bind fun g => play g (MoveArg.str "rock") (some (MoveArg.str "scissors")) 0)
      = some (none, some "rock smashes scissors, player1 wins!") := by decide

/-- Claim C5 as amended: name-form play computes the match internally and
prints the narrative (returning None); when move_a's index wins, the message
uses the verb keyed by (winner_index, loser_index) and ends in
", player1 wins!" for an explicit move_b and ", you win!" for a sampled one. -/
theorem play_name_narrative (g : Game) (ns : List String)
    (vs : List ((Nat × Nat) × String)) (a b v v2 bs : String) (s : Nat)
    (hns : g.node_names = some ns) (hvs : g.edge_verbs = some vs)
    (hlen : ns.length = g.n) (ha : a ∈ ns) (hb : b ∈ ns)
    (hwin : resolve_outcome g.n (ns.indexOf a) (ns.indexOf b)
      = some ((ns.indexOf a : Nat) : Int))
    (hv : List.lookup (ns.indexOf a, ns.indexOf b) vs = some v)
    (hwin2 : resolve_outcome g.n (ns.indexOf a) s = some ((ns.indexOf a : Nat) : Int))
    (hbs : ns[s]? = some bs)
    (hv2 : List.lookup (ns.indexOf a, s) vs = some v2) :
    play g (MoveArg.str a) (some (MoveArg.str b)) s
      = some (none, some (a ++ " " ++ v ++ " " ++ b ++ ", player1 wins!")) ∧
    play g (MoveArg.str a) none s
      = some (none, some (a ++ " " ++ v2 ++ " " ++ bs ++ ", you win!")) := by
  have hia : ns.indexOf a < ns.length := List.indexOf_lt_length.2 ha
  have hib : ns.indexOf b < ns.length := List.indexOf_lt_length.2 hb
  have hga : ns.indexOf a < g.n := hlen ▸ hia
  have hgb : ns.indexOf b < g.n := hlen ▸ hib
  have hgeta : ns[ns.indexOf a]? = some a := by
    rw [List.getElem?_eq_getElem hia, List.getElem_indexOf hia]
  have hgetb : ns[ns.indexOf b]? = some b := by
    rw [List.getElem?_eq_getElem hib, List.getElem_indexOf hib]
  constructor
  · simp only [play, hns, hvs, play_str, ha, hb, if_pos, play_int, hga, hgb, hwin,
      Option.map_some', Option.some_bind', render_msg, hgeta, hgetb, if_true]
    rw [hv]
    rfl
  · simp only [play, hns, hvs, play_str, ha, if_pos, play_int, hga, hwin2,
      Option.map_some', Option.some_bind', render_msg, hgeta, hbs, if_true]
    rw [hv2]
    rfl

theorem play_name_narrative_witness :
    play ⟨3, 3, some ["scissors", "paper", "rock"],
        some [((0, 1), "cuts"), ((1, 2), "wraps"), ((2, 0), "smashes")]⟩
      (MoveArg.str "rock") (some (MoveArg.str "scissors")) 0
      = some (none, some ("rock" ++ " " ++ "smashes" ++ " " ++ "scissors"
          ++ ", player1 wins!")) ∧
    play ⟨3, 3, some ["scissors", "paper", "rock"],
        some [((0, 1), "cuts"), ((1, 2), "wraps"), ((2, 0), "smashes")]⟩
      (MoveArg.str "rock") none 0
      = some (none, some ("rock" ++ " " ++ "smashes" ++ " " ++ "scissors"
          ++ ", you win!")) :=
  play_name_narrative ⟨3, 3, some ["scissors", "paper", "rock"],
      some [((0, 1), "cuts"), ((1, 2), "wraps"), ((2, 0), "smashes")]⟩
    ["scissors", "paper", "rock"]
    [((0, 1), "cuts"), ((1, 2), "wraps"), ((2, 0), "smashes")]
    "rock" "scissors" "smashes" "smashes" "scissors" 0
    rfl rfl (by decide) (by decide) (by decide) (by decide) (by decide)
    (by decide) (by decide) (by decide)

